import Mathlib

/-!
Verification of mkvtool's two core engines against their specification:
the track-selection engine (`trackByLanguage`, `stringInSlice`, the
track-by-index lookups of `extract` and `adddefault` in mkvtool.go) and the
filename mask renderer (`format` in mkvtool.go).

The embedding is shallow: each Go function is translated into an executable
Lean definition over explicit in-memory data. External collaborators
(the `runner` subprocess interface, `ParseTorrentName`, file I/O) are kept
outside the model exactly as the specification's interface section does:
the renderer takes the already-extracted metadata mapping as an argument,
and the functions that would run a subprocess instead return the argument
vector they would pass to the runner.
-/

namespace Mkvtool

/-- Track type tag for subtitle tracks (`typeSubtitle` in mkvtool.go). -/
def typeSubtitle : String := "subtitles"

/-- The per-track fields the selection engine reads from the container
introspection collaborator (`matroska.Tracks` entries in mkvjson.go):
the zero-based ID, the type tag, the track name, the language code and the
default flag. -/
structure Track where
  ID : Int
  type : String
  TrackName : String
  Language : String
  DefaultTrack : Bool := false
deriving Repr, DecidableEq

/-- The parts of the `matroska` structure the selection engine reads. -/
structure matroska where
  FileName : String
  Tracks : List Track
deriving Repr, DecidableEq

/-- ASCII lowercasing of a string, modelling Go's `strings.ToLower` on the
ASCII inputs the program works with. -/
def lowerStr (s : String) : String := String.mk (s.data.map Char.toLower)

/-- Go `strings.Contains(l, sub)` over character lists: `sub` occurs as a
contiguous sublist of `l` (always true for an empty `sub`). -/
def containsSub (sub : List Char) : List Char → Bool
  | [] => sub.isEmpty
  | c :: cs => sub.isPrefixOf (c :: cs) || containsSub sub cs

/-- `stringInSlice` from mkvtool.go: true when the (lowercased) string
contains one of the (lowercased) slice entries as a substring
(`strings.Contains(strings.ToLower(s), strings.ToLower(substr))`). -/
def stringInSlice (s : String) (slc : List String) : Bool :=
  slc.any fun substr => containsSub (lowerStr substr).data (lowerStr s).data

/-- The inner loop of `trackByLanguage`: scan the track list in order and
return the ID of the first subtitle track with the given language whose
name is not excluded by `ignore`. -/
def findTrack (tracks : List Track) (lang : String) (ignore : List String) : Option Int :=
  match tracks with
  | [] => none
  | t :: ts =>
    if t.type != typeSubtitle || t.Language != lang then findTrack ts lang ignore
    else if stringInSlice t.TrackName ignore then findTrack ts lang ignore
    else some t.ID

/-- The outer loop of `trackByLanguage`: try each language of the priority
list in order, translating the reserved language "default" to the empty
string before matching. -/
def trackByLanguageGo (mkv : matroska) (languages ignore : List String) : Option Int :=
  match languages with
  | [] => none
  | lang :: rest =>
    let l := if lang == "default" then "" else lang
    match findTrack mkv.Tracks l ignore with
    | some id => some id
    | none => trackByLanguageGo mkv rest ignore

/-- `trackByLanguage` from mkvtool.go: the nested loops over the language
priority list and the track list, falling through to the
`no track with language(s): ...` error when nothing matches. -/
def trackByLanguage (mkv : matroska) (languages ignore : List String) : Except String Int :=
  match trackByLanguageGo mkv languages ignore with
  | some id => Except.ok id
  | none => Except.error ("no track with language(s): " ++ String.intercalate "," languages)

/-- The track-lookup loop of `extract` in mkvtool.go: find the first track
whose ID equals `tracknum` and return its language. -/
def findLanguageById (tracks : List Track) (tracknum : Int) : Option String :=
  match tracks with
  | [] => none
  | t :: ts => if t.ID == tracknum then some t.Language else findLanguageById ts tracknum

/-- The pure selection phase of `extract` in mkvtool.go: the language of the
track with the given number, or the `track #N not found in file F` error.
(The temporary-file creation and the `mkvextract` invocation that follow are
collaborator I/O and stay outside the model.) -/
def extract (mkv : matroska) (tracknum : Int) : Except String String :=
  match findLanguageById mkv.Tracks tracknum with
  | some language => Except.ok language
  | none =>
    Except.error ("track #" ++ toString tracknum ++ " not found in file " ++ mkv.FileName)

/-- The loop body of `adddefault` in mkvtool.go over a track list: on the
first track whose ID matches, return the `mkvpropedit` argument vector the
runner would execute (base-1 track number); otherwise fall through. -/
def adddefaultGo (mkv : matroska) (tracks : List Track) (tracknum : Int) :
    Option (List String) :=
  match tracks with
  | [] => none
  | t :: ts =>
    if t.ID == tracknum then
      some ["mkvpropedit", mkv.FileName, "--edit", "track:" ++ toString (tracknum + 1),
        "--set", "flag-default=1"]
    else adddefaultGo mkv ts tracknum

/-- `adddefault` from mkvtool.go, with the runner collaborator modelled by
returning the command line it would run: the `mkvpropedit` invocation for an
existing track, or the `file F does not contain track N` error. -/
def adddefault (mkv : matroska) (tracknum : Int) : Except String (List String) :=
  match adddefaultGo mkv mkv.Tracks tracknum with
  | some cmd => Except.ok cmd
  | none =>
    Except.error ("file " ++ mkv.FileName ++ " does not contain track " ++ toString tracknum)

/-! ## The mask renderer (`format` in mkvtool.go) -/

/-- A metadata value in the mapping produced by the release-name extraction
collaborator: the specification's data model makes each field a string or an
integer (Go `structs.Map` of the parsed release information, with `string`
and `int` fields). -/
inductive Value where
  | str (s : String)
  | int (n : Int)
deriving Repr, DecidableEq

/-- A parsed printf sizing specification, as Go's `fmt` reads the
`%<sizespec>s` / `%<sizespec>d` format strings `format` builds: the `-` and
`0` flags, an optional width and an optional precision. -/
structure FmtSpec where
  minus : Bool
  zero : Bool
  width : Option Nat
  prec : Option Nat
deriving Repr, DecidableEq

/-- Go `fmt` flag parsing restricted to the characters the token regex can
produce: leading `-` and `0` characters are flags, the rest starts the
width. -/
def readFlags : List Char → Bool → Bool → Bool × Bool × List Char
  | [], m, z => (m, z, [])
  | c :: cs, m, z =>
    if c == '-' then readFlags cs true z
    else if c == '0' then readFlags cs m true
    else (m, z, c :: cs)

/-- Numeric value of a digit run. -/
def digitsToNat (ds : List Char) : Nat :=
  List.foldl (fun a c => a * 10 + (c.toNat - 48)) 0 ds

/-- Parse a sizespec string captured by the token regex
(`(?:-?[\d]+)?(?:\.\d+)?`) the way Go's `fmt` parses it inside
`"%" + sizespec + verb`. -/
def parseSpec (s : String) : FmtSpec :=
  let fl := readFlags s.data false false
  let ws := fl.2.2.takeWhile Char.isDigit
  let rest := fl.2.2.dropWhile Char.isDigit
  let w : Option Nat := if ws.isEmpty then none else some (digitsToNat ws)
  let p : Option Nat :=
    match rest with
    | '.' :: ps => some (digitsToNat ps)
    | _ => none
  ⟨fl.1, fl.2.1, w, p⟩

/-- Go `fmt` width padding: pad to the width with the pad byte on the left,
or with the pad byte on the right under the `-` flag. -/
def fmtPad (spec : FmtSpec) (padByte : Char) (s : List Char) : List Char :=
  match spec.width with
  | none => s
  | some w =>
    if spec.minus then s ++ List.replicate (w - s.length) padByte
    else List.replicate (w - s.length) padByte ++ s

/-- Decimal digits of a natural number, most significant first (fuel-driven
so that concrete instances evaluate in the kernel). -/
def natDigitsAux : Nat → Nat → List Char
  | 0, _ => []
  | fuel + 1, n =>
    if n == 0 then [] else natDigitsAux fuel (n / 10) ++ [Char.ofNat (48 + n % 10)]

/-- Decimal rendering of a natural number. -/
def decimal (n : Nat) : List Char :=
  if n == 0 then ['0'] else natDigitsAux n n

/-- Go `fmt.Sprintf("%<spec>s", val)`: truncate to the precision, then pad
to the width (zero padding only on the left, per Go's `writePadding`). -/
def fmtS (spec : FmtSpec) (s : List Char) : List Char :=
  let t := match spec.prec with
    | none => s
    | some p => s.take p
  fmtPad spec (if spec.zero && !spec.minus then '0' else ' ') t

/-- Go `fmt.Sprintf("%<spec>d", val)`: render the decimal digits with the
minimum digit count taken from the precision (or from the width under the
`0` flag without `-`), then pad to the width with spaces. -/
def fmtD (spec : FmtSpec) (n : Int) : List Char :=
  let neg := n < 0
  let minDigits : Nat :=
    match spec.prec with
    | some p => p
    | none =>
      match spec.width with
      | some w => if spec.zero && !spec.minus then w - (if neg then 1 else 0) else 0
      | none => 0
  let ds :=
    if n == 0 && spec.prec == some 0 then []
    else decimal n.natAbs
  let body := (if neg then ['-'] else []) ++ List.replicate (minDigits - ds.length) '0' ++ ds
  fmtPad spec ' ' body

/-- ASCII characters of the Unicode word-break class MidLetter (only the
colon in ASCII). -/
def isMidLetterChar (c : Char) : Bool := c == ':'

/-- ASCII characters of the combined class MidNumLetQ = MidNumLet plus
Single_Quote: the full stop and the apostrophe. -/
def isMidNumLetQ (c : Char) : Bool := c == '.' || c == Char.ofNat 39

/-- ASCII characters of the word-break class MidNum: comma and
semicolon. -/
def isMidNumChar (c : Char) : Bool := c == ',' || c == ';'

/-- ASCII characters of the word-break class ExtendNumLet: the
underscore. -/
def isExtendNumLet (c : Char) : Bool := c == '_'

/-- Whether an optional context character is an ASCII letter. -/
def optAlpha : Option Char → Bool
  | some c => c.isAlpha
  | none => false

/-- Whether an optional context character is an ASCII digit. -/
def optDigit : Option Char → Bool
  | some c => c.isDigit
  | none => false

/-- No word boundary between the adjacent characters `x` and `y`, where `p`
is the character before `x` and `q` the character after `y`: the default
Unicode word-boundary rules WB5-WB13b restricted to ASCII, which
`cases.Title` follows. Letters join letters and digits; a single MidLetter,
MidNumLet or Single_Quote character is word-internal when flanked by
letters (MidNum, MidNumLet and Single_Quote likewise between digits); the
ExtendNumLet character joins letters and digits; everything else is a
boundary. -/
def noBreakBetween (p : Option Char) (x y : Char) (q : Option Char) : Bool :=
  (x.isAlpha && y.isAlpha) ||
  (x.isAlpha && (isMidLetterChar y || isMidNumLetQ y) && optAlpha q) ||
  (optAlpha p && (isMidLetterChar x || isMidNumLetQ x) && y.isAlpha) ||
  (x.isDigit && y.isDigit) ||
  (x.isAlpha && y.isDigit) ||
  (x.isDigit && y.isAlpha) ||
  (optDigit p && (isMidNumChar x || isMidNumLetQ x) && y.isDigit) ||
  (x.isDigit && (isMidNumChar y || isMidNumLetQ y) && optDigit q) ||
  ((x.isAlpha || x.isDigit || isExtendNumLet x) && isExtendNumLet y) ||
  (isExtendNumLet x && (y.isAlpha || y.isDigit))

/-- The title-casing pass of `cases.Title(language.English)` over ASCII
text: characters are scanned left to right, a word continues across
positions without a word boundary (per `noBreakBetween`), the first letter
of each word is uppercased, every later letter of the same word is
lowercased, and characters that are not letters are copied (so a mid-word
apostrophe or colon, or digits inside a word, keep the following letters
lowercase). `sawCased` records whether the current word already contains a
letter; `p2` and `p1` are the two preceding characters. -/
def titleWalk : Bool → Option Char → Option Char → List Char → List Char
  | _, _, _, [] => []
  | sawCased, p2, p1, x :: rest =>
    let joined :=
      match p1 with
      | none => false
      | some p => noBreakBetween p2 p x rest.head?
    let saw := sawCased && joined
    (if x.isAlpha then (if saw then x.toLower else x.toUpper) else x) ::
      titleWalk (saw || x.isAlpha) p1 (some x) rest

/-- `cases.Title(language.English).String` as used by `format`, both to
capitalize the tag name and to capitalize title values, modelled on ASCII
via the default word-boundary rules. -/
def goTitle (s : String) : String := String.mk (titleWalk false none none s.data)

/-- Character class of the regex's `[a-z]+` tag group. -/
def isTagChar (c : Char) : Bool := 'a' ≤ c && c ≤ 'z'

/-- The `(?:-?[\d]+)?` part of the token regex, matched greedily at the head
of the input: the matched characters and the rest. -/
def matchNum (cs : List Char) : List Char × List Char :=
  match cs with
  | '-' :: rest =>
    if (rest.takeWhile Char.isDigit).isEmpty then ([], cs)
    else ('-' :: rest.takeWhile Char.isDigit, rest.dropWhile Char.isDigit)
  | _ => (cs.takeWhile Char.isDigit, cs.dropWhile Char.isDigit)

/-- The `(?:\.\d+)?` part of the token regex, matched greedily at the head
of the input. -/
def matchPrec (cs : List Char) : List Char × List Char :=
  match cs with
  | '.' :: rest =>
    if (rest.takeWhile Char.isDigit).isEmpty then ([], cs)
    else ('.' :: rest.takeWhile Char.isDigit, rest.dropWhile Char.isDigit)
  | _ => ([], cs)

/-- The brace-and-tag part of the token regex, matched after the percent
sign and the sizespec: an open brace, a nonempty `[a-z]+` tag and a close
brace. Returns the sizespec (passed through), the tag and the rest. -/
def matchTag (sz rest : List Char) : Option (List Char × List Char × List Char) :=
  match rest with
  | '\x7b' :: r4 =>
    match r4.dropWhile isTagChar with
    | '\x7d' :: r6 =>
      if (r4.takeWhile isTagChar).isEmpty then none
      else some (sz, r4.takeWhile isTagChar, r6)
    | _ => none
  | _ => none

/-- Match of the token regex `%((?:-?[\d]+)?(?:\.\d+)?)\x7b([a-z]+)\x7d`
(the regular expression `format` compiles) at the head of the input.
Returns the sizespec group, the tag group and the remaining input. On this
pattern Go's leftmost-first matching coincides with this greedy parse,
because every shorter choice of the optional groups leaves a character that
cannot be the required open brace. -/
def matchTok (cs : List Char) : Option (List Char × List Char × List Char) :=
  match cs with
  | '%' :: r1 =>
    matchTag ((matchNum r1).1 ++ (matchPrec (matchNum r1).2).1)
      (matchPrec (matchNum r1).2).2
  | _ => none

/-- The raw text of a token match: `%`, the sizespec, and the tag in
braces. -/
def tokText (sz tag : List Char) : List Char :=
  '%' :: sz ++ '\x7b' :: tag ++ ['\x7d']

/-- The text of a bare token (no sizespec) for a given tag. -/
def tokMask (tag : List Char) : List Char :=
  '%' :: '\x7b' :: (tag ++ ['\x7d'])

/-- A segment of the tokenized mask: a literal character emitted verbatim,
or a token match carrying its full text, its sizespec and its tag. -/
inductive Seg where
  | lit (c : Char)
  | tok (text : String) (sizespec : String) (tag : String)
deriving Repr, DecidableEq

/-- Fuel-driven scan of the mask for non-overlapping leftmost token matches,
as `regexp.ReplaceAllStringFunc` performs it: at each position either a
token match (the scan resumes after it) or one verbatim character. The fuel
only bounds the number of steps; `length cs` steps always suffice. -/
def segmentsF : Nat → List Char → List Seg
  | 0, _ => []
  | _ + 1, [] => []
  | fuel + 1, c :: cs =>
    match matchTok (c :: cs) with
    | some (sz, tag, rest) =>
      Seg.tok (String.mk (tokText sz tag)) (String.mk sz) (String.mk tag) :: segmentsF fuel rest
    | none => Seg.lit c :: segmentsF fuel cs

/-- Tokenization of a mask into literal and token segments. -/
def segments (cs : List Char) : List Seg := segmentsF cs.length cs

/-- The body of the replacement closure in `format`: capitalize the tag to
the mapping's key convention, look it up, and either render the value
(printf formatting through the sizespec; title capitalization only for the
title field; empty strings and non-positive integers fall through like
missing fields) or produce the `Unable to parse data for <token>` error
recorded in the error list. -/
def resolveTok (fields : List (String × Value)) (sizespec tag text : String) :
    Except String String :=
  let key := goTitle tag
  match fields.lookup key with
  | some (Value.str val) =>
    if val == "" then Except.error ("Unable to parse data for " ++ text)
    else
      let v := if key == "Title" then goTitle val else val
      Except.ok (String.mk (fmtS (parseSpec sizespec) v.data))
  | some (Value.int val) =>
    if val ≤ 0 then Except.error ("Unable to parse data for " ++ text)
    else Except.ok (String.mk (fmtD (parseSpec sizespec) val))
  | none => Except.error ("Unable to parse data for " ++ text)

/-- Rendering of one segment: the emitted characters and the recorded
errors. A failed token emits `*ERROR*` into the (discarded) output and
pushes its message onto the error list, exactly as the Go closure does. -/
def segRender (fields : List (String × Value)) : Seg → List Char × List String
  | Seg.lit c => ([c], [])
  | Seg.tok text sz tag =>
    match resolveTok fields sz tag text with
    | Except.ok s => (s.data, [])
    | Except.error e => ("*ERROR*".data, [e])

/-- The single substitution pass over all segments, accumulating the output
and the error list in order. -/
def renderSegs (fields : List (String × Value)) : List Seg → List Char × List String
  | [] => ([], [])
  | s :: rest =>
    let r := segRender fields s
    let rs := renderSegs fields rest
    (r.1 ++ rs.1, r.2 ++ rs.2)

/-- `format` from mkvtool.go, over the already-extracted metadata mapping
(the release-name parsing of the file name is the external collaborator):
run the single substitution pass; if any errors were recorded, fail with
the `;`-joined error list and discard the substituted output, otherwise
return the fully substituted string. -/
def format (fields : List (String × Value)) (mask : String) : Except String String :=
  let r := renderSegs fields (segments mask.data)
  if r.2.isEmpty then Except.ok (String.mk r.1)
  else Except.error (String.intercalate ";" r.2)

/-! ## Specification-side views used by the theorems -/

/-- The token of a segment, if any: its text, sizespec and tag. -/
def tokOf : Seg → Option (String × String × String)
  | Seg.lit _ => none
  | Seg.tok text sz tag => some (text, sz, tag)

/-- The tokens of a mask, in order. -/
def tokensOf (mask : String) : List (String × String × String) :=
  (segments mask.data).filterMap tokOf

/-- Whether a token resolves against a mapping. -/
def tokResolves (fields : List (String × Value)) (t : String × String × String) : Bool :=
  (resolveTok fields t.2.1 t.2.2 t.1).isOk

/-- The tokens of a mask that do not resolve against a mapping, in order. -/
def unresolvedToks (fields : List (String × Value)) (mask : String) :
    List (String × String × String) :=
  (tokensOf mask).filter fun t => !(tokResolves fields t)

/-- The characters a segment contributes to the mask text itself. -/
def segText : Seg → List Char
  | Seg.lit c => [c]
  | Seg.tok text _ _ => text.data

/-- The fully substituted output of a successful render. -/
def renderedOut (fields : List (String × Value)) (mask : String) : String :=
  String.mk (List.foldr (fun s acc => (segRender fields s).1 ++ acc) [] (segments mask.data))

/-- The reserved-language translation of the selection spec: the token
"default" stands for the empty-string language. -/
def normLang (l : String) : String := if l == "default" then "" else l

/-- The per-track acceptance test of the selection spec: subtitle type,
matching language, and a name not excluded by any of the substrings. -/
def isCandidate (ignore : List String) (lang : String) (t : Track) : Bool :=
  t.type == typeSubtitle && t.Language == lang && !stringInSlice t.TrackName ignore

/-- `selectByLanguagePriority` written as the specification describes it:
the first language of the priority list (after reserved-token translation)
for which some track passes the acceptance test, and for that language the
first such track in original track order. Stated with library combinators
so the loop structure of `trackByLanguage` can be verified against it. -/
def selectByLanguagePriority (tracks : List Track) (languagePriority excludeSubstrings : List String) :
    Option Track :=
  (languagePriority.map normLang).findSome? fun lang =>
    tracks.find? (isCandidate excludeSubstrings lang)

theorem matchNum_eq (cs : List Char) : (matchNum cs).1 ++ (matchNum cs).2 = cs := by
  unfold matchNum
  split
  · split
    · simp
    · simp [List.takeWhile_append_dropWhile]
  · simp [List.takeWhile_append_dropWhile]

theorem matchPrec_eq (cs : List Char) : (matchPrec cs).1 ++ (matchPrec cs).2 = cs := by
  unfold matchPrec
  split
  · split
    · simp
    · simp [List.takeWhile_append_dropWhile]
  · simp

theorem matchTag_eq {sz rest sz' tag r6} (h : matchTag sz rest = some (sz', tag, r6)) :
    sz' = sz ∧ tag ≠ [] ∧ rest = '\x7b' :: tag ++ '\x7d' :: r6 := by
  unfold matchTag at h
  split at h
  · rename_i r4
    split at h
    · rename_i r6' heq
      split at h
      · simp at h
      · rename_i hne
        rw [Option.some.injEq, Prod.mk.injEq, Prod.mk.injEq] at h
        obtain ⟨h1, h2, h3⟩ := h
        refine ⟨h1.symm, ?_, ?_⟩
        · intro hnil
          rw [hnil] at h2
          simp [h2] at hne
        · have hd := List.takeWhile_append_dropWhile isTagChar r4
          rw [heq, h2, h3] at hd
          exact congrArg (List.cons '\x7b') hd.symm
    · simp at h
  · simp at h

/-- A successful token match is exactly the text it consumed: the input is
the token text followed by the rest. -/
theorem matchTok_eq {cs sz tag rest} (h : matchTok cs = some (sz, tag, rest)) :
    cs = tokText sz tag ++ rest := by
  unfold matchTok at h
  split at h
  · rename_i r1
    obtain ⟨h1, _htag, h3⟩ := matchTag_eq h
    have hn := matchNum_eq r1
    have hp := matchPrec_eq (matchNum r1).2
    rw [h3] at hp
    rw [← hp] at hn
    rw [← hn, h1]
    simp [tokText]
  · simp at h

/-- A token match consumes at least four characters. -/
theorem matchTok_length {cs sz tag rest} (h : matchTok cs = some (sz, tag, rest)) :
    rest.length + 4 ≤ cs.length := by
  have htag : tag ≠ [] := by
    unfold matchTok at h
    split at h
    · exact (matchTag_eq h).2.1
    · simp at h
  have hlen := congrArg List.length (matchTok_eq h)
  have h1 : 1 ≤ tag.length := by
    cases tag
    · simp at htag
    · simp
  simp [tokText] at hlen
  omega

/-- The fuel argument of `segmentsF` does not matter once it reaches the
input length. -/
theorem segmentsF_eq :
    ∀ (f g : Nat) (cs : List Char), cs.length ≤ f → cs.length ≤ g →
      segmentsF f cs = segmentsF g cs := by
  intro f
  induction f with
  | zero =>
    intro g cs hf _
    have : cs = [] := by
      cases cs
      · rfl
      · simp at hf
    subst this
    cases g <;> rfl
  | succ f ih =>
    intro g cs hf hg
    cases g with
    | zero =>
      have : cs = [] := by
        cases cs
        · rfl
        · simp at hg
      subst this
      rfl
    | succ g =>
      cases cs with
      | nil => rfl
      | cons c cs' =>
        cases hm : matchTok (c :: cs') with
        | none =>
          have hlen : cs'.length ≤ f := by simp at hf; omega
          have hlen' : cs'.length ≤ g := by simp at hg; omega
          simp only [segmentsF, hm]
          rw [ih g cs' hlen hlen']
        | some x =>
          obtain ⟨sz, tag, rest⟩ := x
          have hr := matchTok_length hm
          have hlen : rest.length ≤ f := by simp at hf hr ⊢; omega
          have hlen' : rest.length ≤ g := by simp at hg hr ⊢; omega
          simp only [segmentsF, hm]
          rw [ih g rest hlen hlen']

/-- Unfolding `segments` at a token match. -/
theorem segments_cons_tok {c cs sz tag rest} (h : matchTok (c :: cs) = some (sz, tag, rest)) :
    segments (c :: cs) =
      Seg.tok (String.mk (tokText sz tag)) (String.mk sz) (String.mk tag) :: segments rest := by
  have hr := matchTok_length h
  unfold segments
  simp only [List.length_cons, segmentsF, h]
  rw [segmentsF_eq cs.length rest.length rest (by simp at hr ⊢; omega) (le_refl _)]

/-- Unfolding `segments` at a literal character. -/
theorem segments_cons_lit {c cs} (h : matchTok (c :: cs) = none) :
    segments (c :: cs) = Seg.lit c :: segments cs := by
  unfold segments
  simp only [List.length_cons, segmentsF, h]

/-- The segments of a mask spell the mask back: tokenization loses no
text. -/
theorem segments_text (cs : List Char) :
    (segments cs).foldr (fun s acc => segText s ++ acc) [] = cs := by
  have main : ∀ (n : Nat) (l : List Char), l.length ≤ n →
      (segments l).foldr (fun s acc => segText s ++ acc) [] = l := by
    intro n
    induction n with
    | zero =>
      intro l hl
      have : l = [] := by
        cases l
        · rfl
        · simp at hl
      subst this
      rfl
    | succ n ih =>
      intro l hl
      cases l with
      | nil => rfl
      | cons c l' =>
        cases hm : matchTok (c :: l') with
        | none =>
          rw [segments_cons_lit hm]
          have : l'.length ≤ n := by simp at hl; omega
          simp only [List.foldr_cons]
          rw [ih l' this]
          rfl
        | some x =>
          obtain ⟨sz, tag, rest⟩ := x
          rw [segments_cons_tok hm]
          have hr := matchTok_length hm
          have : rest.length ≤ n := by simp at hl hr ⊢; omega
          simp only [List.foldr_cons]
          rw [ih rest this]
          exact (matchTok_eq hm).symm
  exact main cs.length cs (le_refl _)

/-! ## Lemmas about the substitution pass -/

/-- Every resolution failure carries the message built from the literal
token text. -/
theorem resolveTok_error_msg {fields sz tag text e}
    (h : resolveTok fields sz tag text = Except.error e) :
    e = "Unable to parse data for " ++ text := by
  unfold resolveTok at h
  dsimp only at h
  split at h
  · split at h
    · simpa using h.symm
    · simp at h
  · split at h
    · simpa using h.symm
    · simp at h
  · simpa using h.symm

/-- The output half of the substitution pass is the concatenation of the
per-segment outputs. -/
theorem renderSegs_fst (fields : List (String × Value)) (l : List Seg) :
    (renderSegs fields l).1 = l.foldr (fun s acc => (segRender fields s).1 ++ acc) [] := by
  induction l with
  | nil => rfl
  | cons s rest ih => simp [renderSegs, ih]

/-- The error half of the substitution pass lists, in order, the message of
every token of the mask that does not resolve. -/
theorem renderSegs_snd (fields : List (String × Value)) (l : List Seg) :
    (renderSegs fields l).2 =
      ((l.filterMap tokOf).filter fun t => !(tokResolves fields t)).map
        (fun t => "Unable to parse data for " ++ t.1) := by
  induction l with
  | nil => rfl
  | cons s rest ih =>
    cases s with
    | lit c =>
      simpa [renderSegs, segRender, tokOf] using ih
    | tok text sz tag =>
      simp only [renderSegs, segRender, tokOf, List.filterMap_cons]
      cases hres : resolveTok fields sz tag text with
      | ok v =>
        simp [tokResolves, hres, ih, Except.isOk, Except.toBool]
      | error e =>
        rw [resolveTok_error_msg hres]
        simp [tokResolves, hres, ih, Except.isOk, Except.toBool]

/-- The renderer in closed form: it fails exactly when some token is
unresolvable, its error joins the messages of all unresolved tokens of the
single pass with `;`, and otherwise it returns the substituted string. -/
theorem format_spec (fields : List (String × Value)) (mask : String) :
    format fields mask =
      if unresolvedToks fields mask = [] then Except.ok (renderedOut fields mask)
      else Except.error (String.intercalate ";"
        ((unresolvedToks fields mask).map fun t => "Unable to parse data for " ++ t.1)) := by
  unfold format renderedOut unresolvedToks tokensOf
  by_cases hc :
      ((segments mask.data).filterMap tokOf).filter (fun t => !(tokResolves fields t)) = []
  · simp [renderSegs_snd, renderSegs_fst, hc]
  · simp [renderSegs_snd, renderSegs_fst, hc]

theorem takeWhile_append_all {p : Char → Bool} {l : List Char}
    (h : ∀ c ∈ l, p c = true) (r : List Char) :
    (l ++ r).takeWhile p = l ++ r.takeWhile p := by
  induction l with
  | nil => rfl
  | cons c cs ih =>
    have hc := h c (by simp)
    have ih' := ih fun x hx => h x (by simp [hx])
    simp [List.takeWhile_cons, hc, ih']

theorem dropWhile_append_all {p : Char → Bool} {l : List Char}
    (h : ∀ c ∈ l, p c = true) (r : List Char) :
    (l ++ r).dropWhile p = r.dropWhile p := by
  induction l with
  | nil => rfl
  | cons c cs ih =>
    have hc := h c (by simp)
    simp only [List.cons_append, List.dropWhile_cons, hc]
    exact ih fun x hx => h x (by simp [hx])

/-- A mask consisting of one bare token (no sizespec) matches that token
and nothing else. -/
theorem matchTok_single (tag : List Char) (h1 : tag ≠ [])
    (h2 : ∀ c ∈ tag, isTagChar c = true) :
    matchTok (tokMask tag) = some ([], tag, []) := by
  have hstep : matchTok (tokMask tag) = matchTag [] ('\x7b' :: (tag ++ ['\x7d'])) := rfl
  have hdw : (tag ++ ['\x7d']).dropWhile isTagChar = ['\x7d'] := by
    rw [dropWhile_append_all h2]
    rfl
  have htw : (tag ++ ['\x7d']).takeWhile isTagChar = tag := by
    rw [takeWhile_append_all h2]
    simp [List.takeWhile_cons, show isTagChar '\x7d' = false from rfl]
  have he : tag.isEmpty = false := by
    cases tag
    · simp at h1
    · rfl
  rw [hstep]
  show (match (tag ++ ['\x7d']).dropWhile isTagChar with
    | '\x7d' :: r6 =>
      if ((tag ++ ['\x7d']).takeWhile isTagChar).isEmpty then none
      else some (([] : List Char), (tag ++ ['\x7d']).takeWhile isTagChar, r6)
    | _ => none) = some ([], tag, [])
  rw [hdw, htw]
  simp [he]

/-- The segments of a bare single-token mask. -/
theorem segments_single (tag : List Char) (h1 : tag ≠ [])
    (h2 : ∀ c ∈ tag, isTagChar c = true) :
    segments (tokMask tag) =
      [Seg.tok (String.mk (tokMask tag)) "" (String.mk tag)] := by
  have h := @segments_cons_tok '%' ('\x7b' :: (tag ++ ['\x7d'])) [] tag []
    (matchTok_single tag h1 h2)
  rw [show segments (tokMask tag) =
    segments ('%' :: '\x7b' :: (tag ++ ['\x7d'])) from rfl, h]
  rfl

/-- Rendering a bare single-token mask that does not resolve. -/
theorem format_single_tok_err {fields : List (String × Value)} {tag : List Char} {e : String}
    (h1 : tag ≠ []) (h2 : ∀ c ∈ tag, isTagChar c = true)
    (hres : resolveTok fields "" (String.mk tag) (String.mk (tokMask tag)) = Except.error e) :
    format fields (String.mk (tokMask tag)) = Except.error e := by
  unfold format
  rw [show (String.mk (tokMask tag)).data = tokMask tag from rfl]
  rw [segments_single tag h1 h2]
  simp only [renderSegs, segRender, hres]
  simp
  rfl

/-- C1: the renderer processes all tokens in one pass without
short-circuiting; if any token is unresolvable it fails with the `;`-joined
list of the messages of every unresolved token of that single attempt (the
literal token texts) and discards the partial render, and otherwise it
returns the fully substituted string; it succeeds exactly when every token
of the mask resolves. -/
theorem format_accumulates_all_errors (fields : List (String × Value)) (mask : String) :
    format fields mask =
      (if unresolvedToks fields mask = [] then Except.ok (renderedOut fields mask)
       else Except.error (String.intercalate ";"
         ((unresolvedToks fields mask).map fun t => "Unable to parse data for " ++ t.1)))
    ∧ ((format fields mask).isOk = true ↔
        ∀ t ∈ tokensOf mask, tokResolves fields t = true) := by
  refine ⟨format_spec fields mask, ?_⟩
  rw [format_spec fields mask]
  by_cases hc : unresolvedToks fields mask = []
  · rw [if_pos hc]
    unfold unresolvedToks at hc
    constructor
    · intro _ t ht
      have h := List.filter_eq_nil_iff.mp hc t ht
      simpa using h
    · intro _
      simp [Except.isOk, Except.toBool]
  · rw [if_neg hc]
    unfold unresolvedToks at hc
    constructor
    · intro habs
      simp [Except.isOk, Except.toBool] at habs
    · intro hall
      exact absurd (List.filter_eq_nil_iff.mpr fun t ht => by simp [hall t ht]) hc

/-- C7: the example render: mask `%{title} S%02.2{season}E%02.2{episode}`
against title "foo", season 1, episode 2 yields exactly `Foo S01E02`. -/
theorem format_mask_example :
    format [("Title", Value.str "foo"), ("Season", Value.int 1), ("Episode", Value.int 2)]
      "%\x7btitle\x7d S%02.2\x7bseason\x7dE%02.2\x7bepisode\x7d" =
      Except.ok "Foo S01E02" := rfl

/-- C9: a mask containing no tokens renders to itself and never fails, for
any metadata mapping. -/
theorem format_literal_mask_identity (fields : List (String × Value)) (mask : String)
    (h : tokensOf mask = []) : format fields mask = Except.ok mask := by
  have hall : ∀ s ∈ segments mask.data, tokOf s = none := by
    intro s hs
    exact List.filterMap_eq_nil_iff.mp h s hs
  have hunres : unresolvedToks fields mask = [] := by
    unfold unresolvedToks
    rw [h]
    rfl
  rw [format_spec fields mask, if_pos hunres]
  congr 1
  unfold renderedOut
  have hfold : ∀ l : List Seg, (∀ s ∈ l, tokOf s = none) →
      l.foldr (fun s acc => (segRender fields s).1 ++ acc) [] =
        l.foldr (fun s acc => segText s ++ acc) [] := by
    intro l
    induction l with
    | nil => intro _; rfl
    | cons s rest ih =>
      intro hl
      cases s with
      | lit c =>
        simp only [List.foldr_cons]
        rw [ih fun x hx => hl x (by simp [hx])]
        rfl
      | tok text sz tag =>
        exact absurd (hl (Seg.tok text sz tag) (by simp)) (by simp [tokOf])
  rw [hfold (segments mask.data) hall, segments_text]

/-- Witness for C9 at a concrete literal-only mask and nonempty mapping. -/
theorem format_literal_mask_identity_witness :
    tokensOf "Some Movie (2020) 100% done" = [] ∧
    format [("Title", Value.str "ignored")] "Some Movie (2020) 100% done" =
      Except.ok "Some Movie (2020) 100% done" :=
  ⟨rfl, format_literal_mask_identity [("Title", Value.str "ignored")]
    "Some Movie (2020) 100% done" rfl⟩

/-- C8(amended): the renderer has no malformed-mask failure class: it fails
exactly when some token of the mask is unresolvable, and mask text that
cannot be parsed as a token (such as an unterminated token) is emitted
verbatim by a successful render rather than rejected. -/
theorem format_no_structural_error :
    (∀ (fields : List (String × Value)) (mask : String),
      (∃ e, format fields mask = Except.error e) ↔ unresolvedToks fields mask ≠ [])
    ∧ format [] "%\x7btitle" = Except.ok "%\x7btitle" := by
  constructor
  · intro fields mask
    rw [format_spec fields mask]
    by_cases hc : unresolvedToks fields mask = [] <;> simp [hc]
  · rfl

/-- C8 counterexample: the structurally unparseable mask `%{title`
tokenizes to no tokens and renders verbatim with success — the renderer
never raises a structural error distinct from unresolved fields; its only
failure, shown on `%{year}`, is the unresolved-field message. -/
theorem format_malformed_mask_counterexample :
    format [] "%\x7btitle" = Except.ok "%\x7btitle" ∧
    format [] "%\x7byear\x7d" = Except.error "Unable to parse data for %\x7byear\x7d" ∧
    tokensOf "%\x7btitle" = [] :=
  ⟨rfl, rfl, rfl⟩

/-- C6: a token whose field is present with an empty string value, or
present with a non-positive numeric value, is treated exactly like an
absent field: the render of the bare token fails with the same
unresolved-field error in all three cases. -/
theorem format_sentinel_unresolved (fields : List (String × Value)) (tag : String)
    (h1 : tag.data ≠ []) (h2 : ∀ c ∈ tag.data, isTagChar c = true)
    (h3 : List.lookup (goTitle tag) fields = some (Value.str "") ∨
      (∃ n : Int, n ≤ 0 ∧ List.lookup (goTitle tag) fields = some (Value.int n)) ∨
      List.lookup (goTitle tag) fields = none) :
    format fields (String.mk (tokMask tag.data)) =
      Except.error ("Unable to parse data for " ++ String.mk (tokMask tag.data)) := by
  apply format_single_tok_err h1 h2
  unfold resolveTok
  dsimp only
  rw [show goTitle (String.mk tag.data) = goTitle tag from rfl]
  rcases h3 with h | ⟨n, hn, h⟩ | h
  · rw [h]
    simp
  · rw [h]
    simp [hn]
  · rw [h]

/-- Witness for C6: rendering `%{season}` against season = 0 fails with
the unresolved-field error. -/
theorem format_sentinel_unresolved_witness :
    format [("Season", Value.int 0)] "%\x7bseason\x7d" =
      Except.error "Unable to parse data for %\x7bseason\x7d" :=
  format_sentinel_unresolved [("Season", Value.int 0)] "season" (by decide) (by decide)
    (Or.inr (Or.inl ⟨0, le_refl 0, rfl⟩))

/-! ## Lemmas about the track selector -/

/-- The inner loop of `trackByLanguage` returns the ID of the first track
accepted by the specification's per-track test. -/
theorem findTrack_eq (tracks : List Track) (lang : String) (ignore : List String) :
    findTrack tracks lang ignore = (tracks.find? (isCandidate ignore lang)).map Track.ID := by
  induction tracks with
  | nil => rfl
  | cons t ts ih =>
    unfold findTrack
    by_cases h1 : (t.type != typeSubtitle || t.Language != lang) = true
    · rw [if_pos h1, ih]
      have hc : isCandidate ignore lang t = false := by
        simp only [Bool.or_eq_true, bne_iff_ne] at h1
        rcases h1 with h | h <;> simp [isCandidate, h]
      rw [List.find?_cons_of_neg _ (by simp [hc])]
    · rw [if_neg h1]
      simp only [Bool.or_eq_true, bne_iff_ne, not_or, not_not] at h1
      by_cases h2 : stringInSlice t.TrackName ignore = true
      · rw [if_pos h2, ih]
        have hc : isCandidate ignore lang t = false := by
          simp [isCandidate, h2]
        rw [List.find?_cons_of_neg _ (by simp [hc])]
      · rw [if_neg h2]
        have hc : isCandidate ignore lang t = true := by
          simp [isCandidate, h1.1, h1.2, h2]
        rw [List.find?_cons_of_pos _ hc]
        rfl

/-- The outer loop of `trackByLanguage` implements the specification's
priority search. -/
theorem trackByLanguageGo_eq (mkv : matroska) (languages ignore : List String) :
    trackByLanguageGo mkv languages ignore =
      (selectByLanguagePriority mkv.Tracks languages ignore).map Track.ID := by
  induction languages with
  | nil => rfl
  | cons lang rest ih =>
    unfold trackByLanguageGo selectByLanguagePriority
    dsimp only
    simp only [List.map_cons, List.findSome?_cons]
    rw [show (if lang == "default" then "" else lang) = normLang lang from rfl]
    rw [findTrack_eq mkv.Tracks (normLang lang) ignore]
    cases hf : mkv.Tracks.find? (isCandidate ignore (normLang lang)) with
    | some t => rfl
    | none =>
      rw [ih]
      rfl

theorem containsSub_nil (l : List Char) : containsSub [] l = true := by
  cases l <;> simp [containsSub, List.isPrefixOf]

/-- An exclusion list containing the empty string excludes every name. -/
theorem stringInSlice_empty {ignore : List String} (h : "" ∈ ignore) (s : String) :
    stringInSlice s ignore = true := by
  unfold stringInSlice
  rw [List.any_eq_true]
  exact ⟨"", h, containsSub_nil _⟩

/-- With an excluding name, the inner loop skips the head track. -/
theorem findTrack_cons_skip {t : Track} {ignore : List String}
    (h : stringInSlice t.TrackName ignore = true) (ts : List Track) (lang : String) :
    findTrack (t :: ts) lang ignore = findTrack ts lang ignore := by
  rw [findTrack_eq, findTrack_eq]
  have hc : isCandidate ignore lang t = false := by
    simp [isCandidate, h]
  rw [List.find?_cons_of_neg _ (by simp [hc])]

/-- The lookup loop of `extract` is the first-match search by ID. -/
theorem findLanguageById_eq (tracks : List Track) (n : Int) :
    findLanguageById tracks n =
      (tracks.find? fun t => t.ID == n).map Track.Language := by
  induction tracks with
  | nil => rfl
  | cons t ts ih =>
    unfold findLanguageById
    by_cases h : (t.ID == n) = true
    · rw [if_pos h]
      simp [List.find?, h]
    · have hb : (t.ID == n) = false := by simpa using h
      rw [if_neg h, ih]
      simp [List.find?, hb]

/-- The loop of `adddefault` is the first-match search by ID, returning the
(ID-independent) command line. -/
theorem adddefaultGo_eq (mkv : matroska) (tracks : List Track) (n : Int) :
    adddefaultGo mkv tracks n =
      (tracks.find? fun t => t.ID == n).map
        (fun _ => ["mkvpropedit", mkv.FileName, "--edit", "track:" ++ toString (n + 1),
          "--set", "flag-default=1"]) := by
  induction tracks with
  | nil => rfl
  | cons t ts ih =>
    unfold adddefaultGo
    by_cases h : (t.ID == n) = true
    · rw [if_pos h]
      simp [List.find?, h]
    · have hb : (t.ID == n) = false := by simpa using h
      rw [if_neg h, ih]
      simp [List.find?, hb]

/-! ## Claims about the track selector -/

/-- C3: `trackByLanguage` is exactly the specification's ordered
language-priority search with the "default" token translated to the empty
language; on tracks with languages [fra, eng] and priority [eng, fra] it
picks the eng track, and the "default" token selects the track with the
empty language string. -/
theorem trackByLanguage_priority_order :
    (∀ (mkv : matroska) (languages ignore : List String),
      trackByLanguage mkv languages ignore =
        match selectByLanguagePriority mkv.Tracks languages ignore with
        | some t => Except.ok t.ID
        | none =>
          Except.error ("no track with language(s): " ++ String.intercalate "," languages))
    ∧ trackByLanguage
        ⟨"f.mkv", [⟨0, typeSubtitle, "", "fra", false⟩, ⟨1, typeSubtitle, "", "eng", false⟩]⟩
        ["eng", "fra"] [] = Except.ok 1
    ∧ trackByLanguage ⟨"f.mkv", [⟨0, typeSubtitle, "x", "", false⟩]⟩ ["default"] [] =
        Except.ok 0 := by
  refine ⟨?_, rfl, rfl⟩
  intro mkv languages ignore
  unfold trackByLanguage
  rw [trackByLanguageGo_eq]
  cases selectByLanguagePriority mkv.Tracks languages ignore <;> rfl

/-- C4: a track whose name matches an exclusion substring
(case-insensitively) is skipped and the scan goes on with the remaining
tracks for every language of the priority list; concretely, with two eng
subtitle tracks named "English (Forced)" and "English" and exclusion
"forced", priority [eng] returns the plain "English" track. -/
theorem trackByLanguage_exclusion_skip :
    (∀ (t : Track) (mkv : matroska) (languages ignore : List String),
      stringInSlice t.TrackName ignore = true →
      trackByLanguage ⟨mkv.FileName, t :: mkv.Tracks⟩ languages ignore =
        trackByLanguage mkv languages ignore)
    ∧ trackByLanguage
        ⟨"f.mkv", [⟨0, typeSubtitle, "English (Forced)", "eng", false⟩,
          ⟨1, typeSubtitle, "English", "eng", false⟩]⟩ ["eng"] ["forced"] =
        Except.ok 1 := by
  constructor
  · intro t mkv languages ignore h
    unfold trackByLanguage
    have hgo : ∀ langs, trackByLanguageGo ⟨mkv.FileName, t :: mkv.Tracks⟩ langs ignore =
        trackByLanguageGo mkv langs ignore := by
      intro langs
      induction langs with
      | nil => rfl
      | cons lang rest ih =>
        unfold trackByLanguageGo
        dsimp only
        rw [findTrack_cons_skip h, ih]
    rw [hgo]
  · rfl

/-- Witness for the skip half of C4: prepending the excluded forced track
does not change the selection. -/
theorem trackByLanguage_exclusion_skip_witness :
    trackByLanguage
      ⟨"f.mkv", [⟨0, typeSubtitle, "English (Forced)", "eng", false⟩,
        ⟨1, typeSubtitle, "English", "eng", false⟩]⟩ ["eng"] ["forced"] =
      trackByLanguage ⟨"f.mkv", [⟨1, typeSubtitle, "English", "eng", false⟩]⟩
        ["eng"] ["forced"] :=
  trackByLanguage_exclusion_skip.1 ⟨0, typeSubtitle, "English (Forced)", "eng", false⟩
    ⟨"f.mkv", [⟨1, typeSubtitle, "English", "eng", false⟩]⟩ ["eng"] ["forced"] rfl

/-- C5: selection by explicit index succeeds — returning the data of the
track whose index equals the argument — exactly when such a track exists,
and otherwise both index-based operations fail with the not-found errors
naming the index and the file. -/
theorem selectByIndex_spec (mkv : matroska) (i : Int) :
    ((extract mkv i).isOk = (mkv.Tracks.any fun t => t.ID == i))
    ∧ ((adddefault mkv i).isOk = (mkv.Tracks.any fun t => t.ID == i))
    ∧ (∀ t, mkv.Tracks.find? (fun t => t.ID == i) = some t →
        extract mkv i = Except.ok t.Language ∧ t.ID = i ∧ t ∈ mkv.Tracks)
    ∧ ((mkv.Tracks.any fun t => t.ID == i) = false →
        extract mkv i =
          Except.error ("track #" ++ toString i ++ " not found in file " ++ mkv.FileName) ∧
        adddefault mkv i =
          Except.error ("file " ++ mkv.FileName ++ " does not contain track " ++ toString i)) := by
  refine ⟨?_, ?_, ?_, ?_⟩
  · unfold extract
    rw [findLanguageById_eq]
    cases hf : mkv.Tracks.find? (fun t => t.ID == i) with
    | some t =>
      have hany : mkv.Tracks.any (fun t => t.ID == i) = true :=
        List.any_eq_true.mpr ⟨t, List.mem_of_find?_eq_some hf,
          by have hp := List.find?_some hf; exact hp⟩
      simp [hany, Except.isOk, Except.toBool]
    | none =>
      have hany : mkv.Tracks.any (fun t => t.ID == i) = false :=
        List.any_eq_false.mpr (List.find?_eq_none.mp hf)
      simp [hany, Except.isOk, Except.toBool]
  · unfold adddefault
    rw [adddefaultGo_eq]
    cases hf : mkv.Tracks.find? (fun t => t.ID == i) with
    | some t =>
      have hany : mkv.Tracks.any (fun t => t.ID == i) = true :=
        List.any_eq_true.mpr ⟨t, List.mem_of_find?_eq_some hf,
          by have hp := List.find?_some hf; exact hp⟩
      simp [hany, Except.isOk, Except.toBool]
    | none =>
      have hany : mkv.Tracks.any (fun t => t.ID == i) = false :=
        List.any_eq_false.mpr (List.find?_eq_none.mp hf)
      simp [hany, Except.isOk, Except.toBool]
  · intro t hf
    refine ⟨?_, ?_, List.mem_of_find?_eq_some hf⟩
    · unfold extract
      rw [findLanguageById_eq, hf]
      rfl
    · simpa using List.find?_some hf
  · intro hany
    have hf : mkv.Tracks.find? (fun t => t.ID == i) = none :=
      List.find?_eq_none.mpr (List.any_eq_false.mp hany)
    constructor
    · unfold extract
      rw [findLanguageById_eq, hf]
      rfl
    · unfold adddefault
      rw [adddefaultGo_eq, hf]
      rfl

/-- Witness for C5 on a file with no tracks: both operations fail with the
errors naming index and file. -/
theorem selectByIndex_spec_witness :
    extract ⟨"f.mkv", []⟩ 3 = Except.error "track #3 not found in file f.mkv" ∧
    adddefault ⟨"f.mkv", []⟩ 3 = Except.error "file f.mkv does not contain track 3" :=
  (selectByIndex_spec ⟨"f.mkv", []⟩ 3).2.2.2 rfl

/-- C10: when the exclusion list contains the empty string, every track
name matches it, so language-priority selection always fails with the
no-match error, whatever the tracks are. -/
theorem trackByLanguage_empty_exclusion (mkv : matroska) (languages ignore : List String)
    (h : "" ∈ ignore) (_hne : languages ≠ []) :
    trackByLanguage mkv languages ignore =
      Except.error ("no track with language(s): " ++ String.intercalate "," languages) := by
  have hnone : ∀ langs, trackByLanguageGo mkv langs ignore = none := by
    intro langs
    induction langs with
    | nil => rfl
    | cons lang rest ih =>
      unfold trackByLanguageGo
      dsimp only
      rw [findTrack_eq]
      have hf : mkv.Tracks.find?
          (isCandidate ignore (if lang == "default" then "" else lang)) = none := by
        rw [List.find?_eq_none]
        intro t _
        simp [isCandidate, stringInSlice_empty h]
      rw [hf]
      simpa using ih
  unfold trackByLanguage
  rw [hnone languages]

/-- Witness for C10: a track that would match [eng] is still rejected when
the exclusion list holds the empty string. -/
theorem trackByLanguage_empty_exclusion_witness :
    trackByLanguage ⟨"f.mkv", [⟨0, typeSubtitle, "x", "eng", false⟩]⟩ ["eng"] [""] =
      Except.error "no track with language(s): eng" :=
  trackByLanguage_empty_exclusion ⟨"f.mkv", [⟨0, typeSubtitle, "x", "eng", false⟩]⟩
    ["eng"] [""] (by simp) (by simp)

end Mkvtool
